import Mathlib

/-!
Verification development for the cdn-ip-tester repository.

Shallow embedding of the core of the program:
* src/cache.rs : RttResult, RttResults (add_result / commit / save / load)
* src/data.rs  : Subnet (len / get_ip), the Loadable/Savable string formats
* src/main.rs  : probe orchestration (do_test_rtt / test_rtt / test_rtts),
                 batch assembly with auto-skip, startup state loading

Machine integers (u64, u32, usize) are modelled as Nat, with explicit
modular reduction where the source relies on wrapping, and explicit range
checks where the source parses bounded integers.  HashMap is modelled as an
association list with overwrite-insert; HashSet as a duplicate-free list.
Addresses are modelled as IPv4 inets (the repository's range loader is
IPv4-only); serialization works on List Char.
-/

set_option maxRecDepth 8000

namespace CdnIpTester

/-- RttResult from src/cache.rs lines 15-19: cdn_rtt and server_rtt, both u64. -/
structure RttResult where
  cdn_rtt : Nat
  server_rtt : Nat
deriving DecidableEq

/-- RttResult::new from src/cache.rs lines 44-49: arguments in order
(server_rtt, cdn_rtt). -/
def RttResult.new (server_rtt cdn_rtt : Nat) : RttResult :=
  { cdn_rtt := cdn_rtt, server_rtt := server_rtt }

/-- Ord for RttResult, src/cache.rs lines 35-41: compare server_rtt first,
then cdn_rtt (strict less-than of the lexicographic order). -/
def rttLt (x y : RttResult) : Bool :=
  decide (x.server_rtt < y.server_rtt) ||
    (decide (x.server_rtt = y.server_rtt) && decide (x.cdn_rtt < y.cdn_rtt))

/-- Non-strict version of the same lexicographic order. -/
def rttLe (x y : RttResult) : Bool :=
  !(rttLt y x)

theorem rttLt_iff (x y : RttResult) :
    rttLt x y = true ↔
      (x.server_rtt < y.server_rtt ∨
        (x.server_rtt = y.server_rtt ∧ x.cdn_rtt < y.cdn_rtt)) := by
  simp [rttLt]

theorem rttLe_iff (x y : RttResult) :
    rttLe x y = true ↔
      (x.server_rtt < y.server_rtt ∨
        (x.server_rtt = y.server_rtt ∧ x.cdn_rtt ≤ y.cdn_rtt)) := by
  simp only [rttLe, Bool.not_eq_true']
  rw [← Bool.not_eq_true, rttLt_iff]
  omega

theorem rttLt_irrefl (x : RttResult) : rttLt x x = false := by
  have : ¬ rttLt x x = true := by
    rw [rttLt_iff]; omega
  simpa using this

theorem rttLe_refl (x : RttResult) : rttLe x x = true := by
  rw [rttLe_iff]; omega

theorem rttLe_trans {x y z : RttResult} (h1 : rttLe x y = true)
    (h2 : rttLe y z = true) : rttLe x z = true := by
  rw [rttLe_iff] at h1 h2 ⊢; omega

theorem rttLe_of_not_le {x y : RttResult} (h : rttLe x y = false) :
    rttLe y x = true := by
  have : ¬ rttLe x y = true := by simp [h]
  rw [rttLe_iff] at this ⊢; omega

theorem rttLt_of_lt_of_le {x y z : RttResult} (h1 : rttLt x y = true)
    (h2 : rttLe y z = true) : rttLt x z = true := by
  rw [rttLt_iff] at h1 ⊢; rw [rttLe_iff] at h2; omega

theorem rttLe_of_lt {x y : RttResult} (h : rttLt x y = true) :
    rttLe x y = true := by
  rw [rttLt_iff] at h; rw [rttLe_iff]; omega

/-- An IpInet value (cidr crate): an address together with a network length.
The development models the IPv4 family (the repository's range loader is
IPv4-only); addr is the u32 value of the address. -/
structure IpInet where
  addr : Nat
  netLen : Nat
deriving DecidableEq

/-- Lookup in the association-list model of HashMap of src/cache.rs. -/
def lookupRes : List (IpInet × RttResult) → IpInet → Option RttResult
  | [], _ => none
  | (k, v) :: t, a => if k = a then some v else lookupRes t a

/-- Overwrite-insert in the association-list model of HashMap::insert. -/
def insertRes : List (IpInet × RttResult) → IpInet → RttResult →
    List (IpInet × RttResult)
  | [], a, r => [(a, r)]
  | (k, v) :: t, a, r =>
      if k = a then (a, r) :: t else (k, v) :: insertRes t a r

/-- RttResults from src/cache.rs lines 52-57: the mapping res, the ordered
key sequence sorted_res_keys, and the staging set tmp_key_set (a HashSet,
modelled as a duplicate-free list). -/
structure RttResults where
  res : List (IpInet × RttResult)
  sorted_res_keys : List IpInet
  tmp_key_set : List IpInet
deriving DecidableEq

/-- Default::default() for RttResults. -/
def emptyResults : RttResults :=
  { res := [], sorted_res_keys := [], tmp_key_set := [] }

/-- self.res.get(key).unwrap() as used inside commit / save; total via a
default that is never reached on the states the program builds. -/
def RttResults.resGet (s : RttResults) (a : IpInet) : RttResult :=
  (lookupRes s.res a).getD (RttResult.new 0 0)

/-- RttResults::add_result, src/cache.rs lines 64-68: stage the key and
unconditionally overwrite the mapping with the newest record. -/
def RttResults.add_result (s : RttResults) (a : IpInet) (r : RttResult) :
    RttResults :=
  { s with
    tmp_key_set := if a ∈ s.tmp_key_set then s.tmp_key_set else a :: s.tmp_key_set,
    res := insertRes s.res a r }

/-- Stable insertion into a key-sorted list; building block of the stable
sort_by_key used at src/cache.rs lines 104-105 and 93-94. -/
def insertByKey (get : IpInet → RttResult) (a : IpInet) :
    List IpInet → List IpInet
  | [] => [a]
  | b :: t =>
      if rttLe (get a) (get b) then a :: b :: t else b :: insertByKey get a t

/-- Stable sort by the looked-up RttResult key (Vec::sort_by_key is a stable
sort; insertion sort keeps equal-key elements in their original order). -/
def sortByKeyRtt (get : IpInet → RttResult) : List IpInet → List IpInet
  | [] => []
  | a :: t => insertByKey get a (sortByKeyRtt get t)

/-- The two-pointer merge loop of RttResults::commit, src/cache.rs lines
107-141, written with explicit fuel (the loop advances i or j each
iteration, so old.length + buf.length iterations suffice):
* buf exhausted: pop an old entry, keep it unless it is staged (lines 112-120);
* old exhausted: emit the staged entry (lines 121-126);
* otherwise compare the CURRENT mapping records of both heads (line 130):
  strictly smaller old head is popped (kept unless staged), otherwise the
  staged head is emitted. -/
def commitMerge (get : IpInet → RttResult) (tmp : IpInet → Bool) :
    Nat → List IpInet → List IpInet → List IpInet
  | 0, _, _ => []
  | _ + 1, [], buf => buf
  | fuel + 1, o :: os, [] =>
      if tmp o then commitMerge get tmp fuel os []
      else o :: commitMerge get tmp fuel os []
  | fuel + 1, o :: os, b :: bs =>
      if rttLt (get o) (get b) then
        if tmp o then commitMerge get tmp fuel os (b :: bs)
        else o :: commitMerge get tmp fuel os (b :: bs)
      else b :: commitMerge get tmp fuel (o :: os) bs

/-- RttResults::commit, src/cache.rs lines 98-144: no-op when nothing is
staged; otherwise sort the staged keys by their current records and merge
them with the previous ordered sequence, then clear the staging set. -/
def RttResults.commit (s : RttResults) : RttResults :=
  if s.tmp_key_set.isEmpty then s
  else
    let buf := sortByKeyRtt s.resGet s.tmp_key_set
    { s with
      sorted_res_keys :=
        commitMerge s.resGet (fun a => decide (a ∈ s.tmp_key_set))
          (s.sorted_res_keys.length + buf.length) s.sorted_res_keys buf,
      tmp_key_set := [] }

/-- The public mutating API of RttResults exercised by the driver loop. -/
inductive CacheOp where
  | addResult (a : IpInet) (r : RttResult)
  | commit

def applyOp (s : RttResults) : CacheOp → RttResults
  | .addResult a r => s.add_result a r
  | .commit => s.commit

def runOps (ops : List CacheOp) : RttResults :=
  ops.foldl applyOp emptyResults

theorem mem_insertByKey (get : IpInet → RttResult) (a x : IpInet)
    (l : List IpInet) : x ∈ insertByKey get a l ↔ x = a ∨ x ∈ l := by
  induction l with
  | nil => simp [insertByKey]
  | cons b t ih =>
    simp only [insertByKey]
    split
    · simp [List.mem_cons]
    · simp only [List.mem_cons, ih]
      tauto

theorem mem_sortByKeyRtt (get : IpInet → RttResult) (x : IpInet)
    (l : List IpInet) : x ∈ sortByKeyRtt get l ↔ x ∈ l := by
  induction l with
  | nil => simp [sortByKeyRtt]
  | cons a t ih =>
    simp only [sortByKeyRtt, mem_insertByKey, ih, List.mem_cons]

theorem pairwise_insertByKey (get : IpInet → RttResult) (a : IpInet)
    {l : List IpInet}
    (h : l.Pairwise (fun x y => rttLe (get x) (get y) = true)) :
    (insertByKey get a l).Pairwise (fun x y => rttLe (get x) (get y) = true) := by
  induction l with
  | nil => simp [insertByKey]
  | cons b t ih =>
    rcases List.pairwise_cons.mp h with ⟨hb, ht⟩
    simp only [insertByKey]
    split
    · rename_i hab
      refine List.pairwise_cons.mpr ⟨?_, h⟩
      intro x hx
      rcases List.mem_cons.mp hx with rfl | hx
      · exact hab
      · exact rttLe_trans hab (hb x hx)
    · rename_i hab
      have hba : rttLe (get b) (get a) = true :=
        rttLe_of_not_le (by simpa using hab)
      refine List.pairwise_cons.mpr ⟨?_, ih ht⟩
      intro x hx
      rcases (mem_insertByKey get a x t).mp hx with rfl | hx
      · exact hba
      · exact hb x hx

theorem pairwise_sortByKeyRtt (get : IpInet → RttResult) (l : List IpInet) :
    (sortByKeyRtt get l).Pairwise (fun x y => rttLe (get x) (get y) = true) := by
  induction l with
  | nil => simp [sortByKeyRtt]
  | cons a t ih => exact pairwise_insertByKey get a ih

theorem mem_commitMerge (get : IpInet → RttResult) (tmp : IpInet → Bool) :
    ∀ (fuel : Nat) (old buf : List IpInet), old.length + buf.length ≤ fuel →
      ∀ x, x ∈ old → tmp x = false → x ∈ commitMerge get tmp fuel old buf := by
  intro fuel
  induction fuel with
  | zero =>
    intro old buf hlen x hx _
    cases old with
    | nil => simp at hx
    | cons o os => simp at hlen
  | succ fuel ih =>
    intro old buf hlen x hx htmp
    cases old with
    | nil => simp at hx
    | cons o os =>
      cases buf with
      | nil =>
        simp only [commitMerge]
        rcases List.mem_cons.mp hx with rfl | hx
        · simp [htmp]
        · split
          · exact ih os [] (by simp at hlen ⊢; omega) x hx htmp
          · exact List.mem_cons_of_mem _ (ih os [] (by simp at hlen ⊢; omega) x hx htmp)
      | cons b bs =>
        simp only [commitMerge]
        split
        · rcases List.mem_cons.mp hx with rfl | hx
          · simp [htmp]
          · split
            · exact ih os (b :: bs) (by simp at hlen ⊢; omega) x hx htmp
            · exact List.mem_cons_of_mem _
                (ih os (b :: bs) (by simp at hlen ⊢; omega) x hx htmp)
        · exact List.mem_cons_of_mem _
            (ih (o :: os) bs (by simp at hlen ⊢; omega) x hx htmp)

theorem commitMerge_staged_first (get : IpInet → RttResult)
    (tmp : IpInet → Bool) :
    ∀ (fuel : Nat) (old buf : List IpInet), old.length + buf.length ≤ fuel →
      buf.Pairwise (fun x y => rttLe (get x) (get y) = true) →
      (∀ x ∈ buf, tmp x = true) →
      ∀ a b, a ∈ old → tmp a = false → b ∈ buf → get a = get b →
        [b, a].Sublist (commitMerge get tmp fuel old buf) := by
  intro fuel
  induction fuel with
  | zero =>
    intro old buf hlen _ _ a b ha _ _ _
    cases old with
    | nil => simp at ha
    | cons o os => simp at hlen
  | succ fuel ih =>
    intro old buf hlen hpw htmpb a b ha hna hb hkey
    cases old with
    | nil => simp at ha
    | cons o os =>
      cases buf with
      | nil => simp at hb
      | cons c cs =>
        simp only [commitMerge]
        split
        · rename_i hlt
          have ha' : a ∈ os := by
            rcases List.mem_cons.mp ha with rfl | h
            · exfalso
              have hcb : rttLe (get c) (get b) = true := by
                rcases List.mem_cons.mp hb with rfl | hbin
                · exact rttLe_refl _
                · exact (List.pairwise_cons.mp hpw).1 b hbin
              have hcontra : rttLt (get a) (get b) = true :=
                rttLt_of_lt_of_le hlt hcb
              rw [hkey, rttLt_irrefl] at hcontra
              exact Bool.noConfusion hcontra
            · exact h
          split
          · exact ih os (c :: cs) (by simp at hlen ⊢; omega) hpw htmpb
              a b ha' hna hb hkey
          · exact List.Sublist.cons _ (ih os (c :: cs) (by simp at hlen ⊢; omega)
              hpw htmpb a b ha' hna hb hkey)
        · rcases List.mem_cons.mp hb with rfl | hbin
          · have hamem : a ∈ commitMerge get tmp fuel (o :: os) cs :=
              mem_commitMerge get tmp fuel (o :: os) cs
                (by simp at hlen ⊢; omega) a ha hna
            exact List.Sublist.cons₂ _ (List.singleton_sublist.mpr hamem)
          · exact List.Sublist.cons _ (ih (o :: os) cs (by simp at hlen ⊢; omega)
              (List.pairwise_cons.mp hpw).2
              (fun x hx => htmpb x (List.mem_cons_of_mem _ hx))
              a b ha hna hbin hkey)

/-- C10: during commit's two-pointer merge, whenever a retained entry of the
old ordered sequence and a staged entry have equal comparison keys, the
staged (newer) entry is emitted before the old entry in the merged
sequence: for every state, every key a of sorted_res_keys that is not
staged and every staged key b with equal current records, b occurs before a
in the committed ordered sequence. -/
theorem commit_tie_staged_first (s : RttResults) (a b : IpInet)
    (ha : a ∈ s.sorted_res_keys) (hna : a ∉ s.tmp_key_set)
    (hb : b ∈ s.tmp_key_set) (hk : s.resGet a = s.resGet b) :
    [b, a].Sublist s.commit.sorted_res_keys := by
  have hne : ¬ s.tmp_key_set.isEmpty = true := by
    cases h : s.tmp_key_set with
    | nil => rw [h] at hb; simp at hb
    | cons _ _ => simp [h]
  unfold RttResults.commit
  rw [if_neg hne]
  refine commitMerge_staged_first s.resGet (fun x => decide (x ∈ s.tmp_key_set))
    _ _ _ (le_refl _) (pairwise_sortByKeyRtt _ _) ?_ a b ha ?_ ?_ hk
  · intro x hx
    simpa using (mem_sortByKeyRtt s.resGet x s.tmp_key_set).mp hx
  · simpa using hna
  · exact (mem_sortByKeyRtt s.resGet b s.tmp_key_set).mpr hb

/-- Witness for the C10 theorem at a concrete committed-then-staged state. -/
theorem commit_tie_staged_first_witness :
    [IpInet.mk 84281096 16, IpInet.mk 16909060 24].Sublist
      (runOps [.addResult ⟨16909060, 24⟩ (.new 1 1), .commit,
        .addResult ⟨84281096, 16⟩ (.new 1 1)]).commit.sorted_res_keys :=
  commit_tie_staged_first _ _ _ (by decide) (by decide) (by decide) (by decide)

/-- Addresses 1.2.3.4/24 and 5.6.7.8/16 used in the concrete evaluations. -/
def addrA : IpInet := ⟨16909060, 24⟩

def addrB : IpInet := ⟨84281096, 16⟩

/-- An operation sequence on which commit leaves the ordered sequence
unsorted: the record of an already-committed address is re-added with a
larger comparison key, and the merge compares the stale occurrence of that
address using its updated record. -/
def opsBad : List CacheOp :=
  [.addResult addrA (.new 1 1), .addResult addrB (.new 2 2), .commit,
    .addResult addrA (.new 9 9), .commit]

def sBad : RttResults := runOps opsBad

/-- C1: after each commit the ordered key sequence is claimed to be a
duplicate-free permutation of the mapping's keys sorted ascending by
(server_rtt, cdn_rtt).  Evaluation of the code at the failing operation
sequence: the final commit leaves [A, B] although A's record (9,9) is
strictly greater than B's record (2,2), so the sequence is not sorted. -/
theorem commit_sorted_violation :
    sBad.sorted_res_keys = [addrA, addrB] ∧
    sBad.tmp_key_set = [] ∧
    sBad.resGet addrA = RttResult.new 9 9 ∧
    sBad.resGet addrB = RttResult.new 2 2 ∧
    rttLt (sBad.resGet addrB) (sBad.resGet addrA) = true := by
  decide

/-- C2: the spec's concrete example does hold (first two conjuncts), but
re-adding a previously-seen address with a record that sorts later does NOT
relocate it: after committing {A:(1,1), B:(2,2)} and re-adding A with (9,9),
the next commit leaves A before B instead of moving it behind B. -/
theorem readd_relocation_bug :
    (runOps [.addResult addrA (.new 50 80), .addResult addrB (.new 10 20),
      .commit]).sorted_res_keys = [addrB, addrA] ∧
    (runOps [.addResult addrA (.new 50 80), .addResult addrB (.new 10 20),
      .commit, .addResult addrA (.new 5 5), .commit]).sorted_res_keys =
      [addrA, addrB] ∧
    (runOps opsBad).sorted_res_keys = [addrA, addrB] ∧
    rttLt ((runOps opsBad).resGet addrB) ((runOps opsBad).resGet addrA) = true := by
  decide

def digitChar (n : Nat) : Char := Char.ofNat (48 + n)

def toDecimalAux : Nat → Nat → List Char
  | 0, _ => []
  | fuel + 1, n =>
      if n < 10 then [digitChar n]
      else toDecimalAux fuel (n / 10) ++ [digitChar (n % 10)]

/-- Decimal formatting of an unsigned integer (Rust Display for u64 / u8),
with fuel to keep the recursion structural. -/
def digits10 (n : Nat) : List Char := toDecimalAux (n + 1) n

/-- Display of a std Ipv4Addr: dotted decimal of the four big-endian octets
of the u32 value. -/
def v4Display (a : Nat) : List Char :=
  digits10 (a / 16777216 % 256) ++ '.' :: digits10 (a / 65536 % 256) ++
    '.' :: digits10 (a / 256 % 256) ++ '.' :: digits10 (a % 256)

/-- Display of a cidr IpInet: address, slash, network length. -/
def inetDisplay (i : IpInet) : List Char :=
  v4Display i.addr ++ '/' :: digits10 i.netLen

/-- One output line of Savable::to_string for RttResults, src/cache.rs
lines 177-183. -/
def rttLine (s : RttResults) (k : IpInet) : List Char :=
  ("ip: ").toList ++ inetDisplay k ++ (", server_rtt: ").toList ++
    digits10 (s.resGet k).server_rtt ++ (", cdn_rtt: ").toList ++
    digits10 (s.resGet k).cdn_rtt ++ ['\n']

def rttLines (s : RttResults) : List IpInet → List Char
  | [] => []
  | k :: ks => rttLine s k ++ rttLines s ks

/-- Savable::to_string for RttResults, src/cache.rs lines 171-187: one line
per key of sorted_res_keys, in that order. -/
def RttResults.to_string (s : RttResults) : List Char :=
  rttLines s s.sorted_res_keys

def splitOnChar (c : Char) : List Char → List (List Char)
  | [] => [[]]
  | x :: xs =>
      if x = c then [] :: splitOnChar c xs
      else
        match splitOnChar c xs with
        | [] => [[x]]
        | l :: ls => (x :: l) :: ls

/-- The line cleanup of Loadable::from_str for RttResults, src/cache.rs
lines 161-167: split on the newline, delete every carriage return, drop
empty lines. -/
def cleanLines (s : List Char) : List (List Char) :=
  ((splitOnChar '\n' s).map (fun l => l.filter (fun c => c != '\r'))).filter
    (fun l => !l.isEmpty)

/-- Match a literal at the front of the input, returning the rest. -/
def dropLit : List Char → List Char → Option (List Char)
  | [], s => some s
  | _ :: _, [] => none
  | c :: cs, x :: xs => if x = c then dropLit cs xs else none

/-- Match a greedy nonempty digit run followed by a literal.  In the line
pattern every digit run is followed by a non-digit literal (or the end), so
the backtracking regex engine behaves exactly like maximal-munch here. -/
def matchNumTail (r : List Char) (lit : List Char) :
    Option (List Char × List Char) :=
  let ds := r.takeWhile Char.isDigit
  let r1 := r.dropWhile Char.isDigit
  if ds.isEmpty then none
  else
    match dropLit lit r1 with
    | none => none
    | some rest => some (ds, rest)

/-- One backtracking attempt of the pattern of src/cache.rs line 73 with
the bounded repetition fixed at n characters: n non-newline characters, a
slash, digits, the server_rtt literal, digits, the cdn_rtt literal, digits,
end of line.  Returns the three capture groups. -/
def tryLen (r : List Char) (n : Nat) :
    Option (List Char × List Char × List Char) :=
  if (r.take n).all (fun c => c != '\n') then
    match r.drop n with
    | '/' :: r1 =>
        match matchNumTail r1 ((", server_rtt: ").toList) with
        | none => none
        | some (d1, r2) =>
            match matchNumTail r2 ((", cdn_rtt: ").toList) with
            | none => none
            | some (d2, r3) =>
                let d3 := r3.takeWhile Char.isDigit
                let r4 := r3.dropWhile Char.isDigit
                if d3.isEmpty || !r4.isEmpty then none
                else some (r.take n ++ '/' :: d1, d2, d3)
    | _ => none
  else none

/-- Greedy search over the bounded repetition: the regex engine prefers the
longest repetition first, so lengths are tried from 45 down to 2. -/
def searchLen (r : List Char) : Nat → Option (List Char × List Char × List Char)
  | 0 => none
  | n + 1 =>
      if n + 1 < 2 then none
      else
        match tryLen r (n + 1) with
        | some g => some g
        | none => searchLen r n

/-- The anchored regex of src/cache.rs lines 72-73 used on every result
line, returning the three capture groups on a match. -/
def matchRttLine (l : List Char) :
    Option (List Char × List Char × List Char) :=
  match dropLit (("ip: ").toList) l with
  | none => none
  | some r => searchLen r 45

def charVal (c : Char) : Nat := c.toNat - 48

def digitsVal (cs : List Char) : Nat :=
  cs.foldl (fun acc c => acc * 10 + charVal c) 0

/-- u64::from_str on the all-digit capture of the regex: nonempty digits,
value below 2^64 (larger values are an overflow error). -/
def parseU64 (cs : List Char) : Option Nat :=
  if cs.isEmpty then none
  else if !(cs.all Char.isDigit) then none
  else if digitsVal cs < 18446744073709551616 then some (digitsVal cs)
  else none

/-- One dotted-decimal octet, std Ipv4Addr::from_str: nonempty digits, no
leading zero, value at most 255. -/
def parseOctet (cs : List Char) : Option Nat :=
  if cs.isEmpty then none
  else if !(cs.all Char.isDigit) then none
  else if decide (1 < cs.length) && (cs.headD 'x' == '0') then none
  else if digitsVal cs ≤ 255 then some (digitsVal cs) else none

/-- std Ipv4Addr::from_str: exactly four octets separated by dots. -/
def parseV4 (cs : List Char) : Option Nat :=
  match splitOnChar '.' cs with
  | [a, b, c, d] =>
      match parseOctet a, parseOctet b, parseOctet c, parseOctet d with
      | some va, some vb, some vc, some vd =>
          some (va * 16777216 + vb * 65536 + vc * 256 + vd)
      | _, _, _, _ => none
  | _ => none

/-- Network-length parse of cidr IpInet::from_str: u8::from_str (digits,
leading zeros allowed, value at most 255), then the IPv4 family bound
check of at most 32. -/
def parseNetLen (cs : List Char) : Option Nat :=
  if cs.isEmpty then none
  else if !(cs.all Char.isDigit) then none
  else if digitsVal cs ≤ 255 then
    if digitsVal cs ≤ 32 then some (digitsVal cs) else none
  else none

/-- IpInet::from_str of the cidr crate on the IPv4 address/length shape:
split at the slash, parse the address and the network length.  Only the
single-slash IPv4 form is modelled (the repository's range loader is
IPv4-only); other shapes reject. -/
def parseIpInet (cs : List Char) : Option IpInet :=
  match splitOnChar '/' cs with
  | [a, p] =>
      match parseV4 a, parseNetLen p with
      | some addr, some n => some ⟨addr, n⟩
      | _, _ => none
  | _ => none

/-- Deserialization errors of src/cache.rs from_string_list: a line that
does not match the regex, an address parse failure, an integer parse
failure. -/
inductive DeserErr where
  | regexErr
  | addrErr
  | intErr
deriving DecidableEq

/-- One line of RttResults::from_string_list, src/cache.rs lines 77-92:
match the regex, then parse the address and the two u64 values; any
failure is an error that aborts the whole load. -/
def parseLine (l : List Char) : Except DeserErr (IpInet × RttResult) :=
  match matchRttLine l with
  | none => .error .regexErr
  | some (g1, g2, g3) =>
      match parseIpInet g1 with
      | none => .error .addrErr
      | some ip =>
          match parseU64 g2, parseU64 g3 with
          | some s, some c => .ok (ip, RttResult.new s c)
          | _, _ => .error .intErr

/-- The loop of from_string_list: insert every parsed record into the
mapping and push its key, stopping at the first failing line. -/
def fromLinesGo (st : RttResults) : List (List Char) → Except DeserErr RttResults
  | [] => .ok st
  | l :: ls =>
      match parseLine l with
      | .error e => .error e
      | .ok (ip, r) =>
          fromLinesGo
            { st with
              res := insertRes st.res ip r,
              sorted_res_keys := st.sorted_res_keys ++ [ip] } ls

/-- RttResults::from_string_list, src/cache.rs lines 70-96: parse every
line, then sort the collected keys by their records (lines 93-94). -/
def fromStringList (ls : List (List Char)) : Except DeserErr RttResults :=
  match fromLinesGo emptyResults ls with
  | .error e => .error e
  | .ok st =>
      .ok { st with sorted_res_keys := sortByKeyRtt st.resGet st.sorted_res_keys }

/-- Loadable::from_str for RttResults, src/cache.rs lines 160-169. -/
def RttResults.from_str (s : List Char) : Except DeserErr RttResults :=
  fromStringList (cleanLines s)

theorem fromLinesGo_err (ls : List (List Char)) :
    ∀ st, (∃ l ∈ ls, matchRttLine l = none) →
      ∃ e, fromLinesGo st ls = .error e := by
  induction ls with
  | nil =>
    intro st h
    rcases h with ⟨l, hl, _⟩
    simp at hl
  | cons l ls ih =>
    intro st h
    rcases h with ⟨l0, hl0, hm⟩
    cases hp : parseLine l with
    | error e => exact ⟨e, by simp [fromLinesGo, hp]⟩
    | ok pr =>
      rcases List.mem_cons.mp hl0 with rfl | htail
      · exfalso
        unfold parseLine at hp
        rw [hm] at hp
        exact Except.noConfusion hp
      · obtain ⟨ip, r⟩ := pr
        obtain ⟨e, he⟩ := ih
          { st with
            res := insertRes st.res ip r,
            sorted_res_keys := st.sorted_res_keys ++ [ip] } ⟨l0, htail, hm⟩
        exact ⟨e, by simp [fromLinesGo, hp, he]⟩

/-- C7: if any non-empty cleaned line of the persisted result text does not
match the fixed line pattern, the whole load fails with a deserialization
error (the loop stops at the first bad line; no partial store is ever
returned, since the error constructor carries no state). -/
theorem from_str_rejects_malformed (s : List Char)
    (h : ∃ l ∈ cleanLines s, matchRttLine l = none) :
    ∃ e, RttResults.from_str s = .error e := by
  obtain ⟨e, he⟩ := fromLinesGo_err (cleanLines s) emptyResults h
  exact ⟨e, by simp [RttResults.from_str, fromStringList, he]⟩

/-- Witness: a text whose single line matches nothing makes the load fail. -/
theorem from_str_rejects_malformed_witness :
    ∃ e, RttResults.from_str (("bogus").toList) = .error e :=
  from_str_rejects_malformed _ ⟨("bogus").toList, by decide, by decide⟩

/-- C3: the save → load round trip is claimed to return an identical
mapping and an identical ordered key sequence for every committed state.
Evaluation at the reachable committed state sBad (whose persisted order is
not sorted, by the commit defect): the reload keeps the mapping but
re-sorts the keys, returning [B, A] where the saved order was [A, B]. -/
theorem roundtrip_reorders :
    ((RttResults.from_str (RttResults.to_string sBad)).toOption).map
        (fun t => t.sorted_res_keys) = some [addrB, addrA] ∧
    sBad.sorted_res_keys = [addrA, addrB] ∧
    ((RttResults.from_str (RttResults.to_string sBad)).toOption).map
        (fun t => (t.resGet addrA, t.resGet addrB)) =
      some (sBad.resGet addrA, sBad.resGet addrB) ∧
    addrA ≠ addrB := by
  decide

/-- Subnet from src/data.rs line 69 (an IPv4 IpCidr: base address and
network length).  The enable flag is Modelled from the spec: the driver in
src/main.rs reads and writes a per-range enable flag (AddressRange.enabled
in the spec), which the stale src/data.rs tuple struct does not declare. -/
structure Subnet where
  addr : Nat
  netLen : Nat
  enable : Bool
deriving DecidableEq

/-- Subnet::len, src/data.rs lines 79-81: one shifted left by (family bit
width minus network length), capped at the hardcoded constant 256. -/
def Subnet.len (s : Subnet) : Nat :=
  min (1 <<< (32 - s.netLen)) 256

/-- Subnet::get_ip, src/data.rs lines 83-94 (IPv4 branch): always returns
the base address plus the index as a wrapping u32 sum; there is no bound
check against len, so the result is never none. -/
def Subnet.get_ip (s : Subnet) (idx : Nat) : Option Nat :=
  some ((s.addr + idx % 4294967296) % 4294967296)

/-- C4: get_ip is claimed to return none exactly when idx is at least the
range capacity.  Evaluation of the code: a /32 range has capacity 1, yet
get_ip at index 1 returns the (out-of-range) successor address; in general
get_ip never returns none for any range and any index. -/
theorem get_ip_never_none :
    (Subnet.mk 16909060 32 false).len = 1 ∧
    (Subnet.mk 16909060 32 false).get_ip 1 = some 16909061 ∧
    ∀ (s : Subnet) (idx : Nat), (s.get_ip idx).isSome = true := by
  refine ⟨by decide, by decide, ?_⟩
  intro s idx
  rfl

/-- C8 counterexample: for a /16 range the code's capacity is the hardcoded
cap 256, not 2^(32-16) = 65536, and no configured value is involved in
Subnet::len at all. -/
theorem subnet_len_hard_cap :
    (Subnet.mk 0 16 false).len = 256 ∧
    (2 : Nat) ^ (32 - 16) = 65536 ∧
    (256 : Nat) ≠ 65536 := by
  decide

/-- calc_subnet_len, src/main.rs lines 376-390: an eligible range
contributes its length capped by the configured max_subnet_len, an
ineligible one contributes 0. -/
def calc_subnet_len (s : Subnet) (current_subnet_start : Nat)
    (auto_skip : Bool) (enable_threshold : Nat) (max_subnet_len : Nat) : Nat :=
  if !auto_skip || decide (current_subnet_start < enable_threshold) || s.enable
  then min s.len max_subnet_len
  else 0

/-- C8 amended: capacity is min(2^(32 - prefix), 256) with the 256 cap
hardcoded in Subnet::len; the configured maximum (max_subnet_len) caps the
per-range effective scan length in the driver's accounting on top of it. -/
theorem subnet_len_formula :
    (∀ s : Subnet, s.len = min (2 ^ (32 - s.netLen)) 256) ∧
    (∀ (s : Subnet) (css th m : Nat),
      calc_subnet_len s css false th m = min s.len m) := by
  constructor
  · intro s
    simp [Subnet.len, Nat.shiftLeft_eq]
  · intro s css th m
    simp [calc_subnet_len]

/-- The observable outcome of one HTTP GET leg: none models a network or
timeout failure (the max-RTT timeout is enforced by the HTTP client,
outside the repository's code); some body is the retrieved response body.
rtt is the elapsed milliseconds measured for the leg. -/
structure LegInput where
  fetch : Option (List Char)
  rtt : Nat
deriving DecidableEq

/-- One batch member: the origin (server) leg and the candidate (cdn) leg. -/
structure ProbeInput where
  server : LegInput
  cdn : LegInput
deriving DecidableEq

def hasPrefixL : List Char → List Char → Bool
  | [], _ => true
  | _ :: _, [] => false
  | c :: cs, x :: xs => x == c && hasPrefixL cs xs

/-- Rust str::contains on a literal substring. -/
def containsSub : List Char → List Char → Bool
  | [], pat => pat.isEmpty
  | c :: t, pat => hasPrefixL pat (c :: t) || containsSub t pat

/-- Probe errors of src/error.rs used by the probe path. -/
inductive ReqwestErrorM where
  | network
  | bodyNoMatch
deriving DecidableEq

/-- do_test_rtt, src/main.rs lines 38-55: a network failure of the GET (or
of reading the body) is an error; a body that does not contain the expected
substring is a BodyNoMatch error; otherwise the elapsed time is returned. -/
def do_test_rtt (fetchRes : Option (List Char)) (elapsed : Nat)
    (expected_body : List Char) : Except ReqwestErrorM Nat :=
  match fetchRes with
  | none => .error .network
  | some body =>
      if containsSub body expected_body = false then .error .bodyNoMatch
      else .ok elapsed

/-- test_rtt, src/main.rs lines 57-113: the two legs run and the pair
succeeds only if both legs succeed, combining the elapsed times into
RttResult::new(server_rtt, cdn_rtt); the server leg's error is reported
first. -/
def test_rtt (server_res_body cdn_res_body : List Char) (m : ProbeInput) :
    Except ReqwestErrorM RttResult :=
  match do_test_rtt m.server.fetch m.server.rtt server_res_body with
  | .error e => .error e
  | .ok s =>
      match do_test_rtt m.cdn.fetch m.cdn.rtt cdn_res_body with
      | .error e => .error e
      | .ok c => .ok (RttResult.new s c)

/-- The collection loop of test_rtts, src/main.rs lines 195-228: one entry
per batch member in batch order; a successful pair is pushed as some, any
failed pair is pushed as none and the loop continues. -/
def test_rtts (server_res_body cdn_res_body : List Char) :
    List ProbeInput → List (Option RttResult)
  | [] => []
  | m :: ms =>
      (match test_rtt server_res_body cdn_res_body m with
        | .ok r => some r
        | .error _ => none) :: test_rtts server_res_body cdn_res_body ms

/-- A leg succeeds: the body was fetched and contains the expected text. -/
def legOk (leg : LegInput) (expected : List Char) : Prop :=
  ∃ body, leg.fetch = some body ∧ containsSub body expected = true

theorem test_rtt_ok_iff (sE cE : List Char) (m : ProbeInput) (r : RttResult) :
    test_rtt sE cE m = .ok r ↔
      (legOk m.server sE ∧ legOk m.cdn cE ∧
        r = RttResult.new m.server.rtt m.cdn.rtt) := by
  obtain ⟨⟨sf, srtt⟩, ⟨cf, crtt⟩⟩ := m
  simp only [test_rtt, do_test_rtt, legOk]
  cases sf with
  | none => simp
  | some sb =>
    cases cf with
    | none =>
      by_cases hcs : containsSub sb sE = true
      · simp [hcs]
      · simp [hcs]
    | some cb =>
      by_cases hcs : containsSub sb sE = true
      · by_cases hcc : containsSub cb cE = true
        · simp [hcs, hcc]
          exact eq_comm
        · simp [hcs, hcc]
      · simp [hcs]

theorem test_rtt_err_iff (sE cE : List Char) (m : ProbeInput) :
    (∃ e, test_rtt sE cE m = .error e) ↔
      ¬(legOk m.server sE ∧ legOk m.cdn cE) := by
  constructor
  · rintro ⟨e, he⟩ ⟨hsv, hcd⟩
    have : test_rtt sE cE m = .ok (RttResult.new m.server.rtt m.cdn.rtt) :=
      (test_rtt_ok_iff sE cE m _).mpr ⟨hsv, hcd, rfl⟩
    rw [this] at he
    exact Except.noConfusion he
  · intro hno
    cases ht : test_rtt sE cE m with
    | error e => exact ⟨e, rfl⟩
    | ok r =>
      rcases (test_rtt_ok_iff sE cE m r).mp ht with ⟨hsv, hcd, _⟩
      exact absurd ⟨hsv, hcd⟩ hno

/-- C5: the probe run returns exactly one entry per batch member in batch
order; the entry is some record if and only if both legs of that member
succeed (the record combining the two measured times), and it is none if
and only if at least one leg fails — the batch is never truncated by a
member failure. -/
theorem test_rtts_per_member (sE cE : List Char) (batch : List ProbeInput) :
    (test_rtts sE cE batch).length = batch.length ∧
    (∀ (i : Nat) (r : RttResult),
      (test_rtts sE cE batch)[i]? = some (some r) ↔
        (∃ m, batch[i]? = some m ∧ legOk m.server sE ∧ legOk m.cdn cE ∧
          r = RttResult.new m.server.rtt m.cdn.rtt)) ∧
    (∀ i : Nat,
      (test_rtts sE cE batch)[i]? = some none ↔
        (∃ m, batch[i]? = some m ∧ ¬(legOk m.server sE ∧ legOk m.cdn cE))) := by
  induction batch with
  | nil => refine ⟨rfl, ?_, ?_⟩ <;> intro i <;> simp [test_rtts]
  | cons m ms ih =>
    refine ⟨by simpa [test_rtts] using ih.1, ?_, ?_⟩
    · intro i r
      cases i with
      | zero =>
        cases ht : test_rtt sE cE m with
        | ok r0 =>
          rcases (test_rtt_ok_iff sE cE m r0).mp ht with ⟨hsv, hcd, hr0⟩
          simp only [test_rtts, ht, List.getElem?_cons_zero, Option.some.injEq]
          constructor
          · rintro rfl
            exact ⟨m, rfl, hsv, hcd, hr0⟩
          · rintro ⟨m', hm', _hs, _hc, hr⟩
            obtain rfl : m = m' := by simpa using hm'
            rw [hr, ← hr0]
        | error e =>
          have hno := (test_rtt_err_iff sE cE m).mp ⟨e, ht⟩
          simp only [test_rtts, ht, List.getElem?_cons_zero, Option.some.injEq]
          constructor
          · intro h
            exact Option.noConfusion h
          · rintro ⟨m', hm', hsv, hcd, _⟩
            obtain rfl : m = m' := by simpa using hm'
            exact absurd ⟨hsv, hcd⟩ hno
      | succ i =>
        simpa [test_rtts] using ih.2.1 i r
    · intro i
      cases i with
      | zero =>
        cases ht : test_rtt sE cE m with
        | ok r0 =>
          rcases (test_rtt_ok_iff sE cE m r0).mp ht with ⟨hsv, hcd, _⟩
          simp only [test_rtts, ht, List.getElem?_cons_zero, Option.some.injEq]
          constructor
          · intro h
            exact Option.noConfusion h
          · rintro ⟨m', hm', hno⟩
            obtain rfl : m = m' := by simpa using hm'
            exact absurd ⟨hsv, hcd⟩ hno
        | error e =>
          have hno := (test_rtt_err_iff sE cE m).mp ⟨e, ht⟩
          simp only [test_rtts, ht, List.getElem?_cons_zero, Option.some.injEq]
          constructor
          · intro _
            exact ⟨m, rfl, hno⟩
          · intro _
            trivial
      | succ i =>
        simpa [test_rtts] using ih.2.2 i

/-- The state of the batch assembly loop of main, src/main.rs lines
428-476: the cursor fields plus the collected candidate addresses and
their range indices. -/
structure ScanState where
  current_subnet : Nat
  current_subnet_start : Nat
  ips : List Nat
  subnet_idxs : List Nat
deriving DecidableEq

/-- One iteration of the inner batch-assembly loop, src/main.rs lines
432-446: if auto-skip is off, or the offset is below the enable threshold,
or the current range is enabled, fetch get_ip at the offset and push the
address and the range index; then advance the range index, wrapping to the
next offset at the end of the range list.  (The max_connection_count
bound, the progress recomputation at the threshold crossing and the
final-offset break are exit conditions of the loop and do not touch the
collected candidates.) -/
def tick (subnets : List Subnet) (auto_skip : Bool) (enable_threshold : Nat)
    (st : ScanState) : ScanState :=
  let subnet := subnets.getD st.current_subnet ⟨0, 0, false⟩
  let st1 :=
    if !auto_skip || decide (st.current_subnet_start < enable_threshold) ||
        subnet.enable then
      match subnet.get_ip st.current_subnet_start with
      | some ip =>
          { st with ips := st.ips ++ [ip],
                    subnet_idxs := st.subnet_idxs ++ [st.current_subnet] }
      | none => st
    else st
  if st1.current_subnet + 1 = subnets.length then
    { st1 with current_subnet := 0,
               current_subnet_start := st1.current_subnet_start + 1 }
  else { st1 with current_subnet := st1.current_subnet + 1 }

def runTicks (subnets : List Subnet) (auto_skip : Bool)
    (enable_threshold : Nat) : Nat → ScanState → ScanState
  | 0, st => st
  | n + 1, st => runTicks subnets auto_skip enable_threshold n
      (tick subnets auto_skip enable_threshold st)

/-- C6: with auto-skip active, one assembly tick contributes a candidate
for the current range exactly when the offset is below the enable
threshold or the range is marked enabled (get_ip never returns none, so
the eligibility test alone decides); concretely, with R1 disabled and R2
enabled at threshold 1, four ticks from the origin collect R1 and R2 at
offset 0 but only R2 at offset 1. -/
theorem auto_skip_eligibility :
    (∀ (subnets : List Subnet) (th : Nat) (st : ScanState),
      (tick subnets true th st).ips =
        (if st.current_subnet_start < th ∨
            (subnets.getD st.current_subnet ⟨0, 0, false⟩).enable = true
         then st.ips ++
           [((subnets.getD st.current_subnet ⟨0, 0, false⟩).addr +
              st.current_subnet_start % 4294967296) % 4294967296]
         else st.ips)) ∧
    (runTicks [⟨100, 24, false⟩, ⟨200, 24, true⟩] true 1 4
        ⟨0, 0, [], []⟩).ips = [100, 200, 201] := by
  constructor
  · intro subnets th st
    by_cases h : st.current_subnet_start < th ∨
        (subnets.getD st.current_subnet ⟨0, 0, false⟩).enable = true
    · rw [if_pos h]
      have hb : (!true || decide (st.current_subnet_start < th) ||
          (subnets.getD st.current_subnet ⟨0, 0, false⟩).enable) = true := by
        rcases h with h | h
        · simp [h]
        · rw [h]
          simp
      simp only [tick, Subnet.get_ip, hb, if_true]
      split <;> rfl
    · rw [if_neg h]
      push_neg at h
      obtain ⟨h1, h2⟩ := h
      have h3 : (subnets.getD st.current_subnet ⟨0, 0, false⟩).enable = false := by
        simpa using h2
      have hb : (!true || decide (st.current_subnet_start < th) ||
          (subnets.getD st.current_subnet ⟨0, 0, false⟩).enable) = false := by
        rw [h3]
        simp [h1]
      simp only [tick, Subnet.get_ip, hb, Bool.false_eq_true, if_false]
      split <;> rfl
  · decide

/-- RttResultCache from src/cache.rs lines 189-193; Default is (0, 0). -/
structure RttResultCache where
  current_subnet : Nat
  current_subnet_start : Nat
deriving DecidableEq

/-- Outcome of loading a persisted file, as discriminated by main: a
successfully parsed value, an fs error (ErrorKind::Fs, the absent or
unreadable file), or any other load (deserialization) error. -/
inductive LoadOutcome (α : Type) where
  | ok (val : α)
  | fsErr
  | deserErr

inductive StartupErr where
  | resultLoad
  | cacheLoad
  | cacheRange
  | cacheOffset
deriving DecidableEq

/-- The rtt-results arm of main's state loading, src/main.rs lines
328-345: an Fs error falls back to the default store, any other load
error aborts main. -/
def loadRttResults (o : LoadOutcome RttResults) : Except StartupErr RttResults :=
  match o with
  | .ok r => .ok r
  | .fsErr => .ok emptyResults
  | .deserErr => .error .resultLoad

/-- The cursor arm of main's state loading, src/main.rs lines 347-369: a
parsed cursor with current_subnet at least subnets.len(), or with
current_subnet_start at least max_subnet_len, is a fatal error; an Fs
error falls back to the default cursor; any other load error aborts. -/
def loadRttResultCache (o : LoadOutcome RttResultCache)
    (numSubnets maxSubnetLen : Nat) : Except StartupErr RttResultCache :=
  match o with
  | .ok c =>
      if numSubnets ≤ c.current_subnet then .error .cacheRange
      else if maxSubnetLen ≤ c.current_subnet_start then .error .cacheOffset
      else .ok c
  | .fsErr => .ok ⟨0, 0⟩
  | .deserErr => .error .cacheLoad

/-- main's startup state loading, src/main.rs lines 323-370: under
no_cache both states default; otherwise the result store and then the
cursor are loaded, and any error value makes main return it (the process
then exits with a non-zero status). -/
def loadStartupState (no_cache : Bool) (ro : LoadOutcome RttResults)
    (co : LoadOutcome RttResultCache) (numSubnets maxSubnetLen : Nat) :
    Except StartupErr (RttResults × RttResultCache) :=
  if no_cache then .ok (emptyResults, ⟨0, 0⟩)
  else
    match loadRttResults ro with
    | .error e => .error e
    | .ok r =>
        match loadRttResultCache co numSubnets maxSubnetLen with
        | .error e => .error e
        | .ok c => .ok (r, c)

/-- C9: an absent persisted result or cursor file is not a startup error
(both states default to empty), while a parsed cursor whose range index is
at least the current number of ranges is a fatal load error that main
returns, exiting non-zero. -/
theorem startup_load_policy :
    (∀ n m : Nat, loadStartupState false .fsErr .fsErr n m =
      .ok (emptyResults, ⟨0, 0⟩)) ∧
    (∀ (ro : LoadOutcome RttResults) (c : RttResultCache) (n m : Nat),
      n ≤ c.current_subnet →
        ∃ e, loadStartupState false ro (.ok c) n m = .error e) := by
  constructor
  · intro n m
    rfl
  · intro ro c n m hn
    cases ro with
    | ok r =>
      refine ⟨.cacheRange, ?_⟩
      simp [loadStartupState, loadRttResults, loadRttResultCache, hn]
    | fsErr =>
      refine ⟨.cacheRange, ?_⟩
      simp [loadStartupState, loadRttResults, loadRttResultCache, hn]
    | deserErr =>
      exact ⟨.resultLoad, rfl⟩

/-- Witness: a cursor pointing at range 5 with only 3 ranges present makes
startup fail even though the result file was absent. -/
theorem startup_load_policy_witness :
    ∃ e, loadStartupState false .fsErr (.ok ⟨5, 0⟩) 3 10 = .error e :=
  startup_load_policy.2 .fsErr ⟨5, 0⟩ 3 10 (by decide)

end CdnIpTester
